import Mathlib

/-!
Shallow embedding of the fastify-camunda Correlation Completion Coordinator:
the process-store repository (src/repositories/process-store.repo.ts), the
process store wrapper (src/lib/process-store.ts), the waitroom
(src/lib/waitroom.ts) and the HTTP handlers for start/complete/status.

JSON values are modelled by the mutually inductive `Json`/`JsonList`/
`JsonFields` types (numbers as integers, strings without control characters),
with an executable serializer and parser standing in for the JavaScript
`JSON.stringify` / `JSON.parse` primitives used by the repository code.
-/

namespace FCam

mutual
/-- Model of a JavaScript JSON value. Arrays and objects carry their children
through the mutually defined `JsonList` and `JsonFields` types so that every
function below is structurally recursive and kernel-computable. -/
inductive Json where
  | null : Json
  | bool (b : Bool) : Json
  | num (n : Int) : Json
  | str (s : String) : Json
  | arr (items : JsonList) : Json
  | obj (fields : JsonFields) : Json

inductive JsonList where
  | nil : JsonList
  | cons (head : Json) (tail : JsonList) : JsonList

inductive JsonFields where
  | nil : JsonFields
  | cons (key : String) (value : Json) (tail : JsonFields) : JsonFields
end

/-- Property lookup on an object's field list (first binding wins; the objects
manipulated by the repository never repeat keys). -/
def JsonFields.lookupKey : JsonFields → String → Option Json
  | .nil, _ => none
  | .cons k v t, key => if k = key then some v else t.lookupKey key

/-- Model of the JavaScript property access `value.key` on a parsed value:
an object yields the bound value (or `undefined`), anything else `undefined`. -/
def Json.getField : Json → String → Option Json
  | .obj fs, key => fs.lookupKey key
  | _, _ => none

/-- JavaScript truthiness of a JSON value: `null`, `false`, `0` and the empty
string are falsy; arrays and objects are always truthy. -/
def Json.truthy : Json → Bool
  | .null => false
  | .bool b => b
  | .num n => n != 0
  | .str s => s != ""
  | .arr _ => true
  | .obj _ => true

/-- JavaScript truthiness of a possibly-`undefined` value. -/
def jsTruthy : Option Json → Bool
  | none => false
  | some v => v.truthy

/-- The decimal digit character for `d` (callers keep `d < 10`). -/
def digitChar : Nat → Char
  | 0 => '0' | 1 => '1' | 2 => '2' | 3 => '3' | 4 => '4'
  | 5 => '5' | 6 => '6' | 7 => '7' | 8 => '8' | _ => '9'

/-- Fuel-driven decimal printer for naturals (most significant digit first);
structural on the fuel so that it reduces inside the kernel. -/
def natChars : Nat → Nat → List Char
  | 0, _ => []
  | fuel + 1, n =>
    if n < 10 then [digitChar n]
    else natChars fuel (n / 10) ++ [digitChar (n % 10)]

/-- Decimal digits of `n`, most significant first. -/
def natDigits (n : Nat) : List Char := natChars (n + 1) n

/-- Characters of an integer, as printed by `JSON.stringify` on an integral
number: an optional minus sign followed by decimal digits. -/
def intChars (n : Int) : List Char :=
  if n < 0 then '-' :: natDigits n.natAbs else natDigits n.natAbs

/-- JSON escaping of one character: quotes and backslashes get a backslash,
anything else is emitted verbatim (the model omits control characters). -/
def escChar (c : Char) : List Char :=
  if c = '"' ∨ c = '\\' then ['\\', c] else [c]

/-- Characters of a JSON string literal, quotes included. -/
def strChars (s : String) : List Char :=
  '"' :: (s.data.flatMap escChar ++ ['"'])

/-- Characters of the keyword `null`. -/
def nullChars : List Char := ['n', 'u', 'l', 'l']

/-- Characters of the keyword `true`. -/
def trueChars : List Char := ['t', 'r', 'u', 'e']

/-- Characters of the keyword `false`. -/
def falseChars : List Char := ['f', 'a', 'l', 's', 'e']

mutual
/-- Serializer: the characters `JSON.stringify` produces for a value (compact
form, no whitespace, exactly as the V8 primitive emits). -/
def Json.jchars : Json → List Char
  | .null => nullChars
  | .bool true => trueChars
  | .bool false => falseChars
  | .num n => intChars n
  | .str s => strChars s
  | .arr .nil => ['[', ']']
  | .arr (.cons x t) => '[' :: (x.jchars ++ t.sepChars)
  | .obj .nil => ['{', '}']
  | .obj (.cons k v t) => '{' :: (strChars k ++ ':' :: (v.jchars ++ t.sepChars))

def JsonList.sepChars : JsonList → List Char
  | .nil => [']']
  | .cons x t => ',' :: (x.jchars ++ t.sepChars)

def JsonFields.sepChars : JsonFields → List Char
  | .nil => ['}']
  | .cons k v t => ',' :: (strChars k ++ ':' :: (v.jchars ++ t.sepChars))
end

/-- Model of `JSON.stringify`. -/
def stringifyJson (v : Json) : String := ⟨v.jchars⟩

/-- Decimal digit test used by the number lexer. -/
def isDigitCh (c : Char) : Bool := '0' ≤ c && c ≤ '9'

/-- Numeric value of a decimal digit character. -/
def digitVal (c : Char) : Nat := c.toNat - 48

/-- Splits a leading run of decimal digits off the input. -/
def takeDigits : List Char → List Char × List Char
  | [] => ([], [])
  | c :: cs =>
    if isDigitCh c then
      let p := takeDigits cs
      (c :: p.1, p.2)
    else ([], c :: cs)

/-- Value of a digit run, most significant digit first. -/
def digitsNat (ds : List Char) : Nat :=
  ds.foldl (fun a c => a * 10 + digitVal c) 0

/-- Reads a string body up to the closing quote, undoing the backslash
escapes that the serializer introduces. -/
def parseStrBody : List Char → Option (List Char × List Char)
  | [] => none
  | '"' :: rest => some ([], rest)
  | '\\' :: c :: rest => (parseStrBody rest).map (fun p => (c :: p.1, p.2))
  | c :: rest => (parseStrBody rest).map (fun p => (c :: p.1, p.2))

mutual
/-- Model of `JSON.parse`, written as a fuel-driven recursive-descent reader
so the definitions stay structural; `parseJson` supplies ample fuel. -/
def parseVal : Nat → List Char → Option (Json × List Char)
  | 0, _ => none
  | fuel + 1, cs =>
    match cs with
    | 'n' :: 'u' :: 'l' :: 'l' :: rest => some (.null, rest)
    | 't' :: 'r' :: 'u' :: 'e' :: rest => some (.bool true, rest)
    | 'f' :: 'a' :: 'l' :: 's' :: 'e' :: rest => some (.bool false, rest)
    | '"' :: rest => (parseStrBody rest).map (fun p => (.str ⟨p.1⟩, p.2))
    | '[' :: ']' :: rest => some (.arr .nil, rest)
    | '[' :: rest => (parseItems fuel rest).map (fun p => (.arr p.1, p.2))
    | '{' :: '}' :: rest => some (.obj .nil, rest)
    | '{' :: rest => (parseFields fuel rest).map (fun p => (.obj p.1, p.2))
    | '-' :: rest =>
      match takeDigits rest with
      | ([], _) => none
      | (ds, r) => some (.num (-(digitsNat ds : Int)), r)
    | c :: rest =>
      if isDigitCh c then
        match takeDigits (c :: rest) with
        | (ds, r) => some (.num ((digitsNat ds : Nat) : Int), r)
      else none
    | [] => none

def parseItems : Nat → List Char → Option (JsonList × List Char)
  | 0, _ => none
  | fuel + 1, cs =>
    match parseVal fuel cs with
    | none => none
    | some (v, r) =>
      match r with
      | ',' :: r2 => (parseItems fuel r2).map (fun p => (.cons v p.1, p.2))
      | ']' :: r2 => some (.cons v .nil, r2)
      | _ => none

def parseFields : Nat → List Char → Option (JsonFields × List Char)
  | 0, _ => none
  | fuel + 1, cs =>
    match cs with
    | '"' :: cs1 =>
      match parseStrBody cs1 with
      | none => none
      | some (k, r1) =>
        match r1 with
        | ':' :: r2 =>
          match parseVal fuel r2 with
          | none => none
          | some (v, r3) =>
            match r3 with
            | ',' :: r4 => (parseFields fuel r4).map (fun p => (.cons ⟨k⟩ v p.1, p.2))
            | '}' :: r4 => some (.cons ⟨k⟩ v .nil, r4)
            | _ => none
        | _ => none
    | _ => none
end

/-- Model of `JSON.parse` on a whole document: `none` models the thrown
`SyntaxError` of the JavaScript primitive. -/
def parseJson (s : String) : Option Json :=
  match parseVal (s.data.length + 1) s.data with
  | some (v, []) => some v
  | _ => none

/-- Input whose first character (if any) is not a decimal digit, so it cannot
extend a serialized number. Every JSON delimiter qualifies. -/
def noDigitHead : List Char → Bool
  | [] => true
  | c :: _ => !(isDigitCh c)

theorem digitChar_val {d : Nat} (h : d < 10) :
    digitVal (digitChar d) = d ∧ isDigitCh (digitChar d) = true := by
  interval_cases d <;> exact ⟨by decide, by decide⟩

theorem natChars_fuel {n : Nat} : ∀ {f g : Nat}, n < f → n < g →
    natChars f n = natChars g n := by
  induction n using Nat.strong_induction_on with
  | _ n ih =>
    intro f g hf hg
    match f, g with
    | f + 1, g + 1 =>
      by_cases h10 : n < 10
      · simp [natChars, h10]
      · have hrec : n / 10 < n := Nat.div_lt_self (by omega) (by omega)
        have h1 : natChars f (n / 10) = natChars g (n / 10) :=
          ih (n / 10) hrec (by omega) (by omega)
        simp only [natChars, if_neg h10]
        rw [h1]

theorem natDigits_step (n : Nat) :
    natDigits n = (if n < 10 then [] else natDigits (n / 10)) ++ [digitChar (n % 10)] := by
  by_cases h10 : n < 10
  · simp [natDigits, natChars, h10, Nat.mod_eq_of_lt h10]
  · have hrec : n / 10 < n := Nat.div_lt_self (by omega) (by omega)
    have h1 : natChars n (n / 10) = natChars (n / 10 + 1) (n / 10) :=
      natChars_fuel (by omega) (by omega)
    simp only [natDigits, natChars, if_neg h10]
    rw [h1]
    simp [natChars]

theorem natDigits_ne_nil (n : Nat) : natDigits n ≠ [] := by
  rw [natDigits_step]; simp

theorem natDigits_digits (n : Nat) : ∀ c ∈ natDigits n, isDigitCh c = true := by
  induction n using Nat.strong_induction_on with
  | _ n ih =>
    rw [natDigits_step]
    intro c hc
    rcases List.mem_append.mp hc with h | h
    · by_cases h10 : n < 10
      · simp [h10] at h
      · have hrec : n / 10 < n := Nat.div_lt_self (by omega) (by omega)
        exact ih (n / 10) hrec c (by simpa [h10] using h)
    · have : c = digitChar (n % 10) := by simpa using h
      subst this
      exact (digitChar_val (Nat.mod_lt _ (by omega))).2

theorem digitsNat_snoc (ds : List Char) (c : Char) :
    digitsNat (ds ++ [c]) = digitsNat ds * 10 + digitVal c := by
  simp [digitsNat]

theorem digitsNat_natDigits (n : Nat) : digitsNat (natDigits n) = n := by
  induction n using Nat.strong_induction_on with
  | _ n ih =>
    rw [natDigits_step]
    by_cases h10 : n < 10
    · simp only [if_pos h10, List.nil_append]
      rw [Nat.mod_eq_of_lt h10]
      simp [digitsNat, (digitChar_val h10).1]
    · have hrec : n / 10 < n := Nat.div_lt_self (by omega) (by omega)
      rw [if_neg h10, digitsNat_snoc, ih (n / 10) hrec,
        (digitChar_val (Nat.mod_lt _ (by omega))).1]
      omega

theorem takeDigits_no_digit {cs : List Char} (h : noDigitHead cs = true) :
    takeDigits cs = ([], cs) := by
  match cs with
  | [] => rfl
  | c :: t =>
    have : isDigitCh c = false := by simpa [noDigitHead] using h
    simp [takeDigits, this]

theorem takeDigits_run {ds : List Char} (hds : ∀ c ∈ ds, isDigitCh c = true)
    {rest : List Char} (hrest : noDigitHead rest = true) :
    takeDigits (ds ++ rest) = (ds, rest) := by
  induction ds with
  | nil => simpa using takeDigits_no_digit hrest
  | cons c t ih =>
    have hc : isDigitCh c = true := hds c (List.mem_cons_self c t)
    have ht : takeDigits (t ++ rest) = (t, rest) :=
      ih fun x hx => hds x (List.mem_cons_of_mem c hx)
    simp [List.cons_append, takeDigits, hc, ht]

theorem natDigits_head (n : Nat) :
    ∃ c t, natDigits n = c :: t ∧ isDigitCh c = true := by
  match h : natDigits n with
  | [] => exact absurd h (natDigits_ne_nil n)
  | c :: t =>
    refine ⟨c, t, rfl, natDigits_digits n c ?_⟩
    rw [h]; exact List.mem_cons_self c t

theorem digit_ne_delims {c : Char} (h : isDigitCh c = true) :
    c ≠ 'n' ∧ c ≠ 't' ∧ c ≠ 'f' ∧ c ≠ '"' ∧ c ≠ '[' ∧ c ≠ '{' ∧ c ≠ '-' ∧ c ≠ ']' ∧ c ≠ '}' := by
  refine ⟨?_, ?_, ?_, ?_, ?_, ?_, ?_, ?_, ?_⟩ <;> (intro hEq; subst hEq; revert h; decide)

theorem parseStrBody_escaped (l : List Char) : ∀ rest : List Char,
    parseStrBody (l.flatMap escChar ++ '"' :: rest) = some (l, rest) := by
  induction l with
  | nil => intro rest; simp [parseStrBody]
  | cons c t ih =>
    intro rest
    by_cases hc : c = '"' ∨ c = '\\'
    · simp only [List.flatMap_cons, escChar, if_pos hc, List.cons_append, List.append_assoc]
      simp [parseStrBody, ih rest]
    · push_neg at hc
      simp only [List.flatMap_cons, escChar, if_neg (by tauto), List.cons_append,
        List.singleton_append]
      simp [parseStrBody, hc.1, hc.2, ih rest]

theorem parseVal_digit_run {c : Char} (h : isDigitCh c = true) (f : Nat)
    {t ds r : List Char} (heq : takeDigits (c :: t) = (ds, r)) :
    parseVal (f + 1) (c :: t) = some (.num ((digitsNat ds : Nat) : Int), r) := by
  obtain ⟨hn, ht, hf, hq, hbk, hbc, hm, _, _⟩ := digit_ne_delims h
  simp [parseVal, hn, ht, hf, hq, hbk, hbc, hm, h, heq]

theorem parseVal_num (n : Int) (f : Nat) {rest : List Char}
    (hrest : noDigitHead rest = true) :
    parseVal (f + 1) (intChars n ++ rest) = some (.num n, rest) := by
  by_cases hneg : n < 0
  · have hds := takeDigits_run (natDigits_digits n.natAbs) hrest
    have habs : ((n.natAbs : Nat) : Int) = -n := by
      rw [← Int.natAbs_neg]
      exact Int.natAbs_of_nonneg (by omega)
    simp only [intChars, if_pos hneg, List.cons_append]
    simp [parseVal, hds, natDigits_ne_nil, digitsNat_natDigits, habs]
  · obtain ⟨c, t, hct, hc⟩ := natDigits_head n.natAbs
    have hds : takeDigits (c :: (t ++ rest)) = (c :: t, rest) := by
      have h0 := takeDigits_run (natDigits_digits n.natAbs) hrest
      rw [hct] at h0; simpa using h0
    have harg : intChars n ++ rest = c :: (t ++ rest) := by
      simp [intChars, hneg, hct]
    rw [harg, parseVal_digit_run hc f hds]
    have hval : digitsNat (c :: t) = n.natAbs := by
      rw [← hct]; exact digitsNat_natDigits n.natAbs
    rw [hval, Int.natAbs_of_nonneg (by omega)]

theorem Json.jchars_head (v : Json) :
    ∃ c t, v.jchars = c :: t ∧ c ≠ ']' ∧ c ≠ '}' := by
  cases v with
  | null => exact ⟨'n', _, rfl, by decide, by decide⟩
  | bool b =>
    cases b with
    | false => exact ⟨'f', _, rfl, by decide, by decide⟩
    | true => exact ⟨'t', _, rfl, by decide, by decide⟩
  | num n =>
    by_cases hneg : n < 0
    · refine ⟨'-', natDigits n.natAbs, ?_, by decide, by decide⟩
      simp [Json.jchars, intChars, hneg]
    · obtain ⟨c, t, hct, hc⟩ := natDigits_head n.natAbs
      obtain ⟨_, _, _, _, _, _, _, hbr, hbc⟩ := digit_ne_delims hc
      refine ⟨c, t, ?_, hbr, hbc⟩
      simp [Json.jchars, intChars, hneg, hct]
  | str s => exact ⟨'"', _, rfl, by decide, by decide⟩
  | arr items =>
    cases items with
    | nil => exact ⟨'[', _, rfl, by decide, by decide⟩
    | cons x t => exact ⟨'[', _, rfl, by decide, by decide⟩
  | obj fields =>
    cases fields with
    | nil => exact ⟨'{', _, rfl, by decide, by decide⟩
    | cons k v t => exact ⟨'{', _, rfl, by decide, by decide⟩

theorem Json.jchars_length_pos (v : Json) : 1 ≤ v.jchars.length := by
  obtain ⟨c, t, hct, -, -⟩ := v.jchars_head
  simp [hct]

mutual
/-- Fuel sufficient for `parseVal` to read back a serialized value. -/
def Json.pfuel : Json → Nat
  | .arr (.cons x t) => 1 + JsonList.pairFuel x t
  | .obj (.cons _ v t) => 1 + JsonFields.pairFuel v t
  | _ => 1
termination_by v => sizeOf v
decreasing_by
  all_goals simp_wf
  all_goals omega

def JsonList.pairFuel : Json → JsonList → Nat
  | x, .nil => 1 + x.pfuel
  | x, .cons y t => 1 + Nat.max x.pfuel (JsonList.pairFuel y t)
termination_by x t => 1 + sizeOf x + sizeOf t
decreasing_by
  all_goals simp_wf
  all_goals omega

def JsonFields.pairFuel : Json → JsonFields → Nat
  | v, .nil => 1 + v.pfuel
  | v, .cons _ w t => 1 + Nat.max v.pfuel (JsonFields.pairFuel w t)
termination_by v t => 1 + sizeOf v + sizeOf t
decreasing_by
  all_goals simp_wf
  all_goals omega
end

theorem Json.pfuel_pos (v : Json) : 1 ≤ v.pfuel := by
  cases v with
  | arr items => cases items <;> simp [Json.pfuel]
  | obj fields => cases fields <;> simp [Json.pfuel]
  | null => simp [Json.pfuel]
  | bool b => simp [Json.pfuel]
  | num n => simp [Json.pfuel]
  | str s => simp [Json.pfuel]

theorem itemsPairFuel_head (x : Json) (t : JsonList) :
    1 + x.pfuel ≤ JsonList.pairFuel x t := by
  cases t with
  | nil => simp [JsonList.pairFuel]
  | cons y t2 =>
    have h1 : JsonList.pairFuel x (.cons y t2)
        = 1 + Nat.max x.pfuel (JsonList.pairFuel y t2) := by
      simp [JsonList.pairFuel]
    rw [h1]
    exact Nat.add_le_add_left (Nat.le_max_left _ _) 1

theorem fieldsPairFuel_head (v : Json) (t : JsonFields) :
    1 + v.pfuel ≤ JsonFields.pairFuel v t := by
  cases t with
  | nil => simp [JsonFields.pairFuel]
  | cons k w t2 =>
    have h1 : JsonFields.pairFuel v (.cons k w t2)
        = 1 + Nat.max v.pfuel (JsonFields.pairFuel w t2) := by
      simp [JsonFields.pairFuel]
    rw [h1]
    exact Nat.add_le_add_left (Nat.le_max_left _ _) 1

theorem itemsSepChars_noDigit (t : JsonList) (r : List Char) :
    noDigitHead (t.sepChars ++ r) = true := by
  cases t <;> rfl

theorem fieldsSepChars_noDigit (t : JsonFields) (r : List Char) :
    noDigitHead (t.sepChars ++ r) = true := by
  cases t <;> rfl

theorem strEta (s : String) : (⟨s.data⟩ : String) = s := rfl

mutual
theorem parseVal_jchars : ∀ (v : Json) (fuel : Nat) (rest : List Char),
    v.pfuel ≤ fuel → noDigitHead rest = true →
    parseVal fuel (v.jchars ++ rest) = some (v, rest)
  | .null, fuel, rest, hfuel, hrest => by
    obtain ⟨f, rfl⟩ : ∃ f, fuel = f + 1 :=
      ⟨fuel - 1, by have h := Json.pfuel_pos .null; omega⟩
    simp [Json.jchars, nullChars, parseVal]
  | .bool b, fuel, rest, hfuel, hrest => by
    obtain ⟨f, rfl⟩ : ∃ f, fuel = f + 1 :=
      ⟨fuel - 1, by have h := Json.pfuel_pos (.bool b); omega⟩
    cases b <;> simp [Json.jchars, trueChars, falseChars, parseVal]
  | .num n, fuel, rest, hfuel, hrest => by
    obtain ⟨f, rfl⟩ : ∃ f, fuel = f + 1 :=
      ⟨fuel - 1, by have h := Json.pfuel_pos (.num n); omega⟩
    simpa [Json.jchars] using parseVal_num n f hrest
  | .str s, fuel, rest, hfuel, hrest => by
    obtain ⟨f, rfl⟩ : ∃ f, fuel = f + 1 :=
      ⟨fuel - 1, by have h := Json.pfuel_pos (.str s); omega⟩
    simp only [Json.jchars, strChars, List.cons_append, List.append_assoc,
      List.singleton_append]
    simp [parseVal, parseStrBody_escaped s.data rest, strEta]
  | .arr .nil, fuel, rest, hfuel, hrest => by
    obtain ⟨f, rfl⟩ : ∃ f, fuel = f + 1 :=
      ⟨fuel - 1, by have h := Json.pfuel_pos (.arr .nil); omega⟩
    simp [Json.jchars, parseVal]
  | .arr (.cons x t), fuel, rest, hfuel, hrest => by
    obtain ⟨f, rfl⟩ : ∃ f, fuel = f + 1 :=
      ⟨fuel - 1, by have h := Json.pfuel_pos (.arr (.cons x t)); omega⟩
    obtain ⟨c, cs, hct, hcbr, -⟩ := x.jchars_head
    have hfx : JsonList.pairFuel x t ≤ f := by
      have h3 : Json.pfuel (.arr (.cons x t)) = 1 + JsonList.pairFuel x t := by
        simp [Json.pfuel]
      omega
    have hitems := parseItems_jchars x t f rest hfx hrest
    have hx : x.jchars ++ (JsonList.sepChars t ++ rest)
        = c :: (cs ++ (JsonList.sepChars t ++ rest)) := by simp [hct]
    rw [hx] at hitems
    have harg : Json.jchars (.arr (.cons x t)) ++ rest
        = '[' :: (c :: (cs ++ (JsonList.sepChars t ++ rest))) := by
      simp [Json.jchars, hct]
    rw [harg]
    simp [parseVal, hcbr, hitems]
  | .obj .nil, fuel, rest, hfuel, hrest => by
    obtain ⟨f, rfl⟩ : ∃ f, fuel = f + 1 :=
      ⟨fuel - 1, by have h := Json.pfuel_pos (.obj .nil); omega⟩
    simp [Json.jchars, parseVal]
  | .obj (.cons k v' t), fuel, rest, hfuel, hrest => by
    obtain ⟨f, rfl⟩ : ∃ f, fuel = f + 1 :=
      ⟨fuel - 1, by have h := Json.pfuel_pos (.obj (.cons k v' t)); omega⟩
    have hfv : JsonFields.pairFuel v' t ≤ f := by
      have h3 : Json.pfuel (.obj (.cons k v' t)) = 1 + JsonFields.pairFuel v' t := by
        simp [Json.pfuel]
      omega
    have hflds := parseFields_jchars k v' t f rest hfv hrest
    have harg : Json.jchars (.obj (.cons k v' t)) ++ rest
        = '{' :: ('"' :: (k.data.flatMap escChar
            ++ ('"' :: (':' :: (v'.jchars ++ (JsonFields.sepChars t ++ rest)))))) := by
      simp [Json.jchars, strChars]
    rw [harg]
    simp [parseVal, hflds]
termination_by v _ _ => sizeOf v
decreasing_by
  all_goals simp_wf
  all_goals omega

theorem parseItems_jchars : ∀ (x : Json) (t : JsonList) (fuel : Nat) (rest : List Char),
    JsonList.pairFuel x t ≤ fuel → noDigitHead rest = true →
    parseItems fuel (x.jchars ++ (t.sepChars ++ rest)) = some (.cons x t, rest)
  | x, .nil, fuel, rest, hfuel, hrest => by
    obtain ⟨f, rfl⟩ : ∃ f, fuel = f + 1 :=
      ⟨fuel - 1, by have h := itemsPairFuel_head x .nil; omega⟩
    have hxf : x.pfuel ≤ f := by have h := itemsPairFuel_head x .nil; omega
    have hx := parseVal_jchars x f (JsonList.sepChars .nil ++ rest) hxf
      (itemsSepChars_noDigit .nil rest)
    simp only [JsonList.sepChars, List.singleton_append] at hx ⊢
    simp [parseItems, hx]
  | x, .cons y t2, fuel, rest, hfuel, hrest => by
    obtain ⟨f, rfl⟩ : ∃ f, fuel = f + 1 :=
      ⟨fuel - 1, by have h := itemsPairFuel_head x (.cons y t2); omega⟩
    have hxf : x.pfuel ≤ f := by have h := itemsPairFuel_head x (.cons y t2); omega
    have hx := parseVal_jchars x f (JsonList.sepChars (.cons y t2) ++ rest) hxf
      (itemsSepChars_noDigit (.cons y t2) rest)
    have hyf : JsonList.pairFuel y t2 ≤ f := by
      have h2 : 1 + JsonList.pairFuel y t2 ≤ JsonList.pairFuel x (.cons y t2) := by
        have h1 : JsonList.pairFuel x (.cons y t2)
            = 1 + Nat.max x.pfuel (JsonList.pairFuel y t2) := by
          simp [JsonList.pairFuel]
        rw [h1]
        exact Nat.add_le_add_left (Nat.le_max_right _ _) 1
      omega
    have hrec := parseItems_jchars y t2 f rest hyf hrest
    simp only [JsonList.sepChars, List.cons_append, List.append_assoc] at hx ⊢
    simp [parseItems, hx, hrec]
termination_by x t _ _ => 1 + sizeOf x + sizeOf t
decreasing_by
  all_goals simp_wf
  all_goals omega

theorem parseFields_jchars : ∀ (k : String) (v : Json) (t : JsonFields)
    (fuel : Nat) (rest : List Char),
    JsonFields.pairFuel v t ≤ fuel → noDigitHead rest = true →
    parseFields fuel
        ('"' :: (k.data.flatMap escChar
          ++ ('"' :: (':' :: (v.jchars ++ (t.sepChars ++ rest))))))
      = some (.cons k v t, rest)
  | k, v, .nil, fuel, rest, hfuel, hrest => by
    obtain ⟨f, rfl⟩ : ∃ f, fuel = f + 1 :=
      ⟨fuel - 1, by have h := fieldsPairFuel_head v .nil; omega⟩
    have hvf : v.pfuel ≤ f := by have h := fieldsPairFuel_head v .nil; omega
    have hv := parseVal_jchars v f (JsonFields.sepChars .nil ++ rest) hvf
      (fieldsSepChars_noDigit .nil rest)
    have hstr := parseStrBody_escaped k.data
      (':' :: (v.jchars ++ (JsonFields.sepChars .nil ++ rest)))
    simp only [JsonFields.sepChars, List.singleton_append] at hv hstr ⊢
    simp [parseFields, hstr, hv, strEta]
  | k, v, .cons k2 w t2, fuel, rest, hfuel, hrest => by
    obtain ⟨f, rfl⟩ : ∃ f, fuel = f + 1 :=
      ⟨fuel - 1, by have h := fieldsPairFuel_head v (.cons k2 w t2); omega⟩
    have hvf : v.pfuel ≤ f := by
      have h := fieldsPairFuel_head v (.cons k2 w t2); omega
    have hv := parseVal_jchars v f (JsonFields.sepChars (.cons k2 w t2) ++ rest) hvf
      (fieldsSepChars_noDigit (.cons k2 w t2) rest)
    have hstr := parseStrBody_escaped k.data
      (':' :: (v.jchars ++ (JsonFields.sepChars (.cons k2 w t2) ++ rest)))
    have hwf : JsonFields.pairFuel w t2 ≤ f := by
      have h2 : 1 + JsonFields.pairFuel w t2 ≤ JsonFields.pairFuel v (.cons k2 w t2) := by
        have h1 : JsonFields.pairFuel v (.cons k2 w t2)
            = 1 + Nat.max v.pfuel (JsonFields.pairFuel w t2) := by
          simp [JsonFields.pairFuel]
        rw [h1]
        exact Nat.add_le_add_left (Nat.le_max_right _ _) 1
      omega
    have hrec := parseFields_jchars k2 w t2 f rest hwf hrest
    have hk2 : strChars k2 ++ (':' :: (w.jchars ++ (JsonFields.sepChars t2 ++ rest)))
        = '"' :: (k2.data.flatMap escChar
            ++ ('"' :: (':' :: (w.jchars ++ (JsonFields.sepChars t2 ++ rest))))) := by
      simp [strChars]
    rw [← hk2] at hrec
    simp only [JsonFields.sepChars, List.cons_append, List.append_assoc] at hv hstr ⊢
    simp [parseFields, hstr, hv, hrec, strEta]
termination_by _ v t _ _ => 1 + sizeOf v + sizeOf t
decreasing_by
  all_goals simp_wf
  all_goals omega
end

mutual
theorem Json.pfuel_le_len : ∀ v : Json, v.pfuel ≤ v.jchars.length
  | .null => by simp [Json.pfuel, Json.jchars, nullChars]
  | .bool b => by cases b <;> simp [Json.pfuel, Json.jchars, trueChars, falseChars]
  | .num n => by
    have h := Json.jchars_length_pos (.num n)
    have h1 : Json.pfuel (.num n) = 1 := by simp [Json.pfuel]
    omega
  | .str s => by
    have h := Json.jchars_length_pos (.str s)
    have h1 : Json.pfuel (.str s) = 1 := by simp [Json.pfuel]
    omega
  | .arr .nil => by simp [Json.pfuel, Json.jchars]
  | .arr (.cons x t) => by
    have h := itemsPairFuel_le_len x t
    have h1 : Json.pfuel (.arr (.cons x t)) = 1 + JsonList.pairFuel x t := by
      simp [Json.pfuel]
    have h2 : (Json.jchars (.arr (.cons x t))).length
        = 1 + (x.jchars ++ t.sepChars).length := by
      simp [Json.jchars]
      omega
    omega
  | .obj .nil => by simp [Json.pfuel, Json.jchars]
  | .obj (.cons k v t) => by
    have h := fieldsPairFuel_le_len v t
    have h1 : Json.pfuel (.obj (.cons k v t)) = 1 + JsonFields.pairFuel v t := by
      simp [Json.pfuel]
    have h2 : (Json.jchars (.obj (.cons k v t))).length
        = 1 + (strChars k).length + 1 + (v.jchars ++ t.sepChars).length := by
      simp [Json.jchars]
      omega
    omega
termination_by v => sizeOf v
decreasing_by
  all_goals simp_wf
  all_goals omega

theorem itemsPairFuel_le_len : ∀ (x : Json) (t : JsonList),
    JsonList.pairFuel x t ≤ (x.jchars ++ t.sepChars).length
  | x, .nil => by
    have h := Json.pfuel_le_len x
    have h1 : JsonList.pairFuel x .nil = 1 + x.pfuel := by simp [JsonList.pairFuel]
    have h2 : (x.jchars ++ JsonList.sepChars .nil).length = x.jchars.length + 1 := by
      simp [JsonList.sepChars]
    omega
  | x, .cons y t2 => by
    have hx := Json.pfuel_le_len x
    have hy := itemsPairFuel_le_len y t2
    have h1 : JsonList.pairFuel x (.cons y t2)
        = 1 + Nat.max x.pfuel (JsonList.pairFuel y t2) := by
      simp [JsonList.pairFuel]
    have hm : Nat.max x.pfuel (JsonList.pairFuel y t2)
        ≤ x.jchars.length + (y.jchars ++ t2.sepChars).length :=
      Nat.max_le.mpr ⟨le_trans hx (by omega), le_trans hy (by omega)⟩
    have h2 : (x.jchars ++ JsonList.sepChars (.cons y t2)).length
        = x.jchars.length + 1 + (y.jchars ++ t2.sepChars).length := by
      simp [JsonList.sepChars]
      omega
    omega
termination_by x t => 1 + sizeOf x + sizeOf t
decreasing_by
  all_goals simp_wf
  all_goals omega

theorem fieldsPairFuel_le_len : ∀ (v : Json) (t : JsonFields),
    JsonFields.pairFuel v t ≤ (v.jchars ++ t.sepChars).length
  | v, .nil => by
    have h := Json.pfuel_le_len v
    have h1 : JsonFields.pairFuel v .nil = 1 + v.pfuel := by simp [JsonFields.pairFuel]
    have h2 : (v.jchars ++ JsonFields.sepChars .nil).length = v.jchars.length + 1 := by
      simp [JsonFields.sepChars]
    omega
  | v, .cons k2 w t2 => by
    have hv := Json.pfuel_le_len v
    have hw := fieldsPairFuel_le_len w t2
    have h1 : JsonFields.pairFuel v (.cons k2 w t2)
        = 1 + Nat.max v.pfuel (JsonFields.pairFuel w t2) := by
      simp [JsonFields.pairFuel]
    have hm : Nat.max v.pfuel (JsonFields.pairFuel w t2)
        ≤ v.jchars.length + (w.jchars ++ t2.sepChars).length :=
      Nat.max_le.mpr ⟨le_trans hv (by omega), le_trans hw (by omega)⟩
    have h2 : (v.jchars ++ JsonFields.sepChars (.cons k2 w t2)).length
        = v.jchars.length + 1 + (strChars k2).length + 1 + (w.jchars ++ t2.sepChars).length := by
      simp [JsonFields.sepChars]
      omega
    omega
termination_by v t => 1 + sizeOf v + sizeOf t
decreasing_by
  all_goals simp_wf
  all_goals omega
end

/-- Round-trip of the JSON model: parsing a serialized value recovers it.
This is the `JSON.parse`/`JSON.stringify` identity that the repository's
write-then-read paths rely on. -/
theorem parseJson_stringify (v : Json) : parseJson (stringifyJson v) = some v := by
  have h1 : v.pfuel ≤ v.jchars.length + 1 :=
    le_trans (Json.pfuel_le_len v) (by omega)
  have h2 := parseVal_jchars v (v.jchars.length + 1) [] h1 rfl
  rw [List.append_nil] at h2
  simp [parseJson, stringifyJson, h2]

/-- One row of `dbo.process_store` (migrations/001_create_process_store.sql).
The status column holds the string written by the repository ('PENDING',
'DONE', 'ERROR', or 'OK' when an ok-status record is upserted); the payload
and error columns hold serialized JSON text or SQL NULL; timestamps are
abstract instants. -/
structure Row where
  status : String
  payload_json : Option String
  error_json : Option String
  started_at : Nat
  updated_at : Nat
deriving DecidableEq

/-- The `process_store` table, keyed by `correlation_id`. The primary key
keeps at most one row per key; every operation below preserves that. -/
abbrev Store := List (String × Row)

/-- Point lookup by correlation id (SELECT ... WHERE correlation_id = @p1). -/
def findRow (st : Store) (correlationId : String) : Option Row :=
  (st.find? (fun e => e.1 == correlationId)).map (fun e => e.2)

/-- In-place row update (UPDATE ... WHERE correlation_id = @p1). -/
def updateRow (st : Store) (correlationId : String) (f : Row → Row) : Store :=
  st.map (fun e => if e.1 == correlationId then (e.1, f e.2) else e)

/-- JavaScript `c.toUpperCase()` on one character. -/
def upChar (c : Char) : Char :=
  if 'a' ≤ c ∧ c ≤ 'z' then Char.ofNat (c.toNat - 32) else c

/-- JavaScript `String.prototype.toUpperCase` (ASCII suffices here). -/
def jsToUpper (s : String) : String := ⟨s.data.map upChar⟩

/-- JavaScript `c.toLowerCase()` on one character. -/
def downChar (c : Char) : Char :=
  if 'A' ≤ c ∧ c ≤ 'Z' then Char.ofNat (c.toNat + 32) else c

/-- JavaScript `String.prototype.toLowerCase` (ASCII suffices here). -/
def jsToLower (s : String) : String := ⟨s.data.map downChar⟩

/-- Runtime shape of the `ProcessData` values of src/lib/process-store.ts.
At runtime `status` holds whatever the stored status lowercases to —
"pending", "done", "error" or "ok" — even though the TypeScript annotation
only lists "pending" | "ok" | "error" (the repository casts with `as`).
`error` carries the extracted `.message` string when present. -/
structure ProcessData where
  status : String
  data : Option Json
  error : Option String
  startedAt : Nat
  updatedAt : Nat

/-- The serialized text `data.data ? JSON.stringify(data.data) : null` that
upsertProcessStore binds for the payload column: a falsy value (0, "",
false, null or undefined) yields SQL NULL. -/
def jsonColumn (d : Option Json) : Option String :=
  match d with
  | some v => if v.truthy then some (stringifyJson v) else none
  | none => none

/-- upsertProcessStore (src/repositories/process-store.repo.ts, lines 20-51):
a single transaction that UPDATEs the row when present — setting status to
`data.status.toUpperCase()`, the payload column to the serialized data (or
NULL when falsy), the error column to `data.error ?? null` verbatim, and
updated_at to SYSUTCDATETIME() — and INSERTs the row otherwise (started_at
also SYSUTCDATETIME()). The UPDATE branch carries no condition on the
current status, and `data.startedAt`/`data.updatedAt` are never read. -/
def upsertProcessStore (st : Store) (correlationId : String) (data : ProcessData)
    (now : Nat) : Store :=
  if (findRow st correlationId).isSome then
    updateRow st correlationId (fun r =>
      { r with
        status := jsToUpper data.status
        payload_json := jsonColumn data.data
        error_json := data.error
        updated_at := now })
  else
    st ++ [(correlationId,
      { status := jsToUpper data.status
        payload_json := jsonColumn data.data
        error_json := data.error
        started_at := now
        updated_at := now })]

/-- completeProcessStore (lines 60-76): UPDATE setting status='DONE',
payload_json=stringify(payload), error_json=NULL, updated_at=now, for the
row with the given correlation id — with no guard on the current status. -/
def completeProcessStore (st : Store) (correlationId : String) (payload : Json)
    (now : Nat) : Store :=
  updateRow st correlationId (fun r =>
    { r with
      status := "DONE"
      payload_json := some (stringifyJson payload)
      error_json := none
      updated_at := now })

/-- Argument passed to failProcessStore: a plain string or an Error-like
object carrying a message (spreading an Error adds no enumerable fields). -/
inductive ErrArg where
  | str (s : String)
  | error (message : String)

/-- The message failProcessStore stores: the string itself, or
`error.message || "Unknown error"` (JavaScript falsy-or, so an empty
message becomes "Unknown error"). -/
def failMessage : ErrArg → String
  | .str s => s
  | .error m => if m = "" then "Unknown error" else m

/-- The serialized error object `JSON.stringify(errorJson)` that
failProcessStore writes. -/
def failJson (e : ErrArg) : String :=
  stringifyJson (.obj (.cons "message" (.str (failMessage e)) .nil))

/-- failProcessStore (lines 85-106): UPDATE setting status='ERROR',
error_json=stringify(message object), payload_json=NULL, updated_at=now —
again with no guard on the current status. -/
def failProcessStore (st : Store) (correlationId : String) (e : ErrArg)
    (now : Nat) : Store :=
  updateRow st correlationId (fun r =>
    { r with
      status := "ERROR"
      error_json := some (failJson e)
      payload_json := none
      updated_at := now })

/-- Conversion from a row to ProcessData as done by the SELECT paths of
pollProcessStore/findProcessStore. `JSON.parse` throws on malformed column
text (Except.error models the propagated exception); a falsy column (NULL or
the empty string) yields `undefined`; the error field is the parsed object's
`.message` property when that is a string, `undefined` otherwise. -/
def rowToProcessData (r : Row) : Except String ProcessData := do
  let dataVal : Option Json ←
    match r.payload_json with
    | some pj =>
      if pj == "" then pure none
      else
        match parseJson pj with
        | some v => pure (some v)
        | none => throw "SyntaxError"
    | none => pure none
  let errVal : Option String ←
    match r.error_json with
    | some ej =>
      if ej == "" then pure none
      else
        match parseJson ej with
        | some v =>
          match v.getField "message" with
          | some (.str m) => pure (some m)
          | _ => pure none
        | none => throw "SyntaxError"
    | none => pure none
  pure {
    status := jsToLower r.status
    data := dataVal
    error := errVal
    startedAt := r.started_at
    updatedAt := r.updated_at }

/-- findProcessStore (lines 155-184): plain point read. -/
def findProcessStore (st : Store) (correlationId : String) :
    Except String (Option ProcessData) :=
  match findRow st correlationId with
  | none => .ok none
  | some r => (rowToProcessData r).map some

/-- pollProcessStore (lines 115-147): the same point read with short lock
hints; its transient lock-timeout failure is injected at the waitroom layer
through the poll oracle. -/
def pollProcessStore (st : Store) (correlationId : String) :
    Except String (Option ProcessData) :=
  match findRow st correlationId with
  | none => .ok none
  | some r => (rowToProcessData r).map some

/-- Partial ProcessData accepted by processStore.save. -/
structure ProcessPatch where
  status : Option String := none
  data : Option Json := none
  error : Option String := none
  startedAt : Option Nat := none
  updatedAt : Option Nat := none

/-- createProcessStore(db).save (src/lib/process-store.ts, lines 32-49):
reads the existing record, merges field-by-field with `??` (nullish
coalescing), and upserts the merged record. A throw from the read —
malformed JSON in a column — propagates to the caller. The merged
startedAt/updatedAt are computed but ignored by upsertProcessStore. -/
def processStoreSave (st : Store) (correlationId : String) (patch : ProcessPatch)
    (now : Nat) : Except String Store := do
  let existing ← findProcessStore st correlationId
  let updated : ProcessData := {
    status := (patch.status <|> existing.map (fun pd => pd.status)).getD "pending"
    data := patch.data <|> existing.bind (fun pd => pd.data)
    error := patch.error <|> existing.bind (fun pd => pd.error)
    startedAt := (patch.startedAt <|> existing.map (fun pd => pd.startedAt)).getD now
    updatedAt := patch.updatedAt.getD now }
  pure (upsertProcessStore st correlationId updated now)

/-- completeWait (src/lib/waitroom.ts, lines 85-98): runs the DONE update and
reports success; a store failure (dbOk = false) is caught, leaving the store
unchanged and reporting false. -/
def completeWait (st : Store) (correlationId : String) (payload : Json)
    (dbOk : Bool) (now : Nat) : Store × Bool :=
  if dbOk then (completeProcessStore st correlationId payload now, true)
  else (st, false)

/-- failWait (lines 109-122): symmetric to completeWait for the ERROR update. -/
def failWait (st : Store) (correlationId : String) (e : ErrArg)
    (dbOk : Bool) (now : Nat) : Store × Bool :=
  if dbOk then (failProcessStore st correlationId e now, true)
  else (st, false)

/-- clearAll (lines 168-181): one UPDATE that moves every PENDING row to
ERROR carrying `Aborted: reason`, leaving all other rows untouched; the
try/catch swallows a store failure (dbOk = false), so the function always
returns normally with the store unchanged in that case. -/
def clearAll (st : Store) (reason : String) (dbOk : Bool) (now : Nat) : Store :=
  if dbOk then
    st.map (fun e =>
      if e.2.status == "PENDING" then
        (e.1, { e.2 with
          status := "ERROR"
          error_json := some (stringifyJson
            (.obj (.cons "message" (.str ("Aborted: " ++ reason)) .nil)))
          updated_at := now })
      else e)
  else st

/-- Outcome of createWait: the promise resolves with `processData.data ??
null`, or rejects with the TIMEOUT error. The loop has no other exit — in
particular no rejection for a terminal ERROR record, because the `throw err`
sits inside the try whose catch swallows every exception of the body. -/
inductive WaitOutcome where
  | ok (data : Json)
  | timeout

/-- Result of one poll as seen inside createWait's try block: the row (or
null), or a thrown exception (lock timeout, malformed JSON). -/
abbrev PollResult := Except String (Option ProcessData)

/-- The while loop of createWait (src/lib/waitroom.ts, lines 34-68). `polls n`
is the result of the n-th pollProcessStore call, `elapsed` stands for
`Date.now() - start`, advanced by each sleep. Returns the outcome with the
sleep durations performed, in order; the fuel only makes the recursion
structural, and `none` (fuel ran out) is unreachable for fuel above
timeoutMs/50 + 1 since each iteration adds at least 50 to elapsed. -/
def waitLoop (polls : Nat → PollResult) (timeoutMs : Nat) :
    Nat → Nat → Nat → Nat → Option (WaitOutcome × List Nat)
  | _, _, _, 0 => none
  | n, elapsed, delay, fuel + 1 =>
    if elapsed < timeoutMs then
      let step : Option WaitOutcome :=
        match polls n with
        | .error _ => none
        | .ok none => none
        | .ok (some processData) =>
          let normalizedStatus :=
            if processData.status == "pending" then "pending"
            else if jsToLower processData.status == "done" then "ok"
            else "error"
          if normalizedStatus == "ok" then
            some (.ok (processData.data.getD .null))
          else none
      match step with
      | some out => some (out, [])
      | none =>
        (waitLoop polls timeoutMs (n + 1) (elapsed + delay)
            (Nat.min (delay * 2) 1000) fuel).map
          (fun p => (p.1, delay :: p.2))
    else some (.timeout, [])

/-- createWait (lines 26-73): delay starts at 50ms; a poll that throws is
swallowed by the catch (comment in source: lock timeout) and so is the
deliberately thrown error for an ERROR record; leaving the while loop throws
the TIMEOUT error, modelled as WaitOutcome.timeout. -/
def createWait (polls : Nat → PollResult) (timeoutMs : Nat) (fuel : Nat) :
    Option (WaitOutcome × List Nat) :=
  waitLoop polls timeoutMs 0 0 50 fuel

/-- Poll oracle over a store no concurrent writer mutates during the wait. -/
def staticPolls (st : Store) (correlationId : String) : Nat → PollResult :=
  fun _ => pollProcessStore st correlationId

/-- Appends a field only when the value is present, matching Fastify's JSON
serialization which omits `undefined` properties. -/
def withField (k : String) (v : Option Json) (t : JsonFields) : JsonFields :=
  match v with
  | some j => .cons k j t
  | none => t

/-- GET /status/:correlationId handler (src/routes/process/status.ts): 404
when no record, otherwise 200 for status "ok", 500 for "error", 202 for
anything else — note the comparison is against the lowercased stored status,
so a 'DONE' row yields "done" and falls into the 202 branch. Timestamps are
reported as numbers here where the route serializes ISO strings. -/
def statusGet (st : Store) (correlationId : String) :
    Except String (Nat × Json) := do
  let found ← findProcessStore st correlationId
  match found with
  | none =>
    pure (404, .obj (.cons "status" (.str "not_found")
      (.cons "correlationId" (.str correlationId) .nil)))
  | some processData =>
    let statusCode :=
      if processData.status == "ok" then 200
      else if processData.status == "error" then 500
      else 202
    pure (statusCode, .obj (.cons "status" (.str processData.status)
      (.cons "correlationId" (.str correlationId)
      (withField "data" processData.data
      (withField "error" (processData.error.map Json.str)
      (.cons "startedAt" (.num processData.startedAt)
      (.cons "updatedAt" (.num processData.updatedAt) .nil)))))))

/-- Validated body of POST /complete (schema: correlationId nonempty,
status ∈ ok | error, data free-form, error a string). -/
structure CompleteBody where
  correlationId : String
  status : String
  data : Option Json
  error : Option String

/-- POST /complete handler (src/routes/process/complete.ts, lines 35-73):
saves the final result — this save is NOT wrapped in try/catch, so a store
failure here (saveDbOk = false) or a JSON parse throw from save's read
escapes the handler instead of reaching the 200 reply — then wakes waiters
via completeWait/failWait (which swallow their own store failures,
sigDbOk = false) and replies 200 with received: true. The deferred
processStore.remove runs 5 seconds after the reply and is outside this
model. -/
def completeRouteHandler (st : Store) (body : CompleteBody)
    (saveDbOk sigDbOk : Bool) (now : Nat) :
    Except String (Store × Nat × Json) := do
  if !saveDbOk then throw "db unavailable"
  let st1 ← processStoreSave st body.correlationId
    { status := some body.status, data := body.data, error := body.error } now
  let st2 :=
    (if body.status == "ok" then
      completeWait st1 body.correlationId (body.data.getD .null) sigDbOk now
    else
      failWait st1 body.correlationId
        (.error (body.error.getD "Unknown process error")) sigDbOk now).1
  pure (st2, 200, .obj (.cons "received" (.bool true) .nil))

theorem stringifyJson_ne_empty (v : Json) : stringifyJson v ≠ "" := by
  obtain ⟨c, t, hct, -, -⟩ := v.jchars_head
  intro h
  have h2 : (stringifyJson v).data = "".data := congrArg String.data h
  rw [stringifyJson] at h2
  simp [hct] at h2

theorem stringifyJson_beq_empty (v : Json) : (stringifyJson v == "") = false := by
  rw [beq_eq_false_iff_ne]
  exact stringifyJson_ne_empty v

theorem findRow_mapSnd (h : String × Row → Row) (st : Store) (k : String) :
    findRow (st.map (fun e => (e.1, h e))) k
      = (st.find? (fun e => e.1 == k)).map h := by
  induction st with
  | nil => rfl
  | cons e t ih =>
    by_cases hk : e.1 == k
    · simp [findRow, List.find?, hk]
    · simp only [findRow, List.map_cons, List.find?, hk] at ih ⊢
      simpa [hk] using ih

theorem updateRow_as_mapSnd (st : Store) (k : String) (f : Row → Row) :
    updateRow st k f = st.map (fun e => (e.1, if e.1 == k then f e.2 else e.2)) := by
  rw [updateRow]
  apply List.map_congr_left
  intro e _
  by_cases hk : e.1 == k
  · simp [hk]
  · simp [hk]

theorem findRow_updateRow_self (st : Store) (k : String) (f : Row → Row) :
    findRow (updateRow st k f) k = (findRow st k).map f := by
  rw [updateRow_as_mapSnd, findRow_mapSnd, findRow]
  cases hfind : st.find? (fun e => e.1 == k) with
  | none => rfl
  | some a =>
    have ha0 := List.find?_some hfind
    have h1 : a.1 = k := by simpa using ha0
    simp [h1]

theorem findRow_updateRow_other (st : Store) (k k' : String) (f : Row → Row)
    (hne : k' ≠ k) :
    findRow (updateRow st k f) k' = findRow st k' := by
  rw [updateRow_as_mapSnd, findRow_mapSnd, findRow]
  cases hfind : st.find? (fun e => e.1 == k') with
  | none => rfl
  | some a =>
    have ha0 := List.find?_some hfind
    have h1 : a.1 = k' := by simpa using ha0
    have h2 : ¬a.1 = k := by rw [h1]; exact fun heq => hne heq
    simp [h2]

theorem clearAll_as_mapSnd (st : Store) (reason : String) (now : Nat) :
    clearAll st reason true now
      = st.map (fun e => (e.1,
          if e.2.status == "PENDING" then
            { e.2 with
              status := "ERROR"
              error_json := some (stringifyJson
                (.obj (.cons "message" (.str ("Aborted: " ++ reason)) .nil)))
              updated_at := now }
          else e.2)) := by
  rw [clearAll, if_pos rfl]
  apply List.map_congr_left
  intro e _
  by_cases hp : e.2.status == "PENDING"
  · simp [hp]
  · simp [hp]

theorem findRow_clearAll (st : Store) (reason : String) (now : Nat) (k : String) :
    findRow (clearAll st reason true now) k
      = (findRow st k).map (fun r =>
          if r.status == "PENDING" then
            { r with
              status := "ERROR"
              error_json := some (stringifyJson
                (.obj (.cons "message" (.str ("Aborted: " ++ reason)) .nil)))
              updated_at := now }
          else r) := by
  rw [clearAll_as_mapSnd, findRow_mapSnd, findRow]
  cases hfind : st.find? (fun e => e.1 == k) with
  | none => rfl
  | some a => rfl

/-- Fixture: a freshly created PENDING row, as upsert_pending inserts it. -/
def rowPending : Row :=
  { status := "PENDING", payload_json := none, error_json := none,
    started_at := 0, updated_at := 0 }

/-- Fixture: a store holding one PENDING record under key k1. -/
def stPending : Store := [("k1", rowPending)]

/-- Fixture: a store whose k1 record was completed with payload 1. -/
def rowDone1 : Row :=
  { status := "DONE", payload_json := some "1", error_json := none,
    started_at := 0, updated_at := 1 }

/-- C1, counterexample: after complete(k1, 1) the record is terminal (DONE),
yet a second complete(k1, 2) replaces the payload — the first terminal
payload is not retained — and a fail after complete even flips the status to
ERROR, so the second signal is not a no-op. -/
theorem c1_counterexample :
    ((findRow (completeProcessStore (completeProcessStore stPending "k1" (.num 1) 1)
          "k1" (.num 2) 2) "k1").map (fun r => r.payload_json)
        = some (some "2"))
    ∧ ((findRow (completeProcessStore (completeProcessStore stPending "k1" (.num 1) 1)
          "k1" (.num 2) 2) "k1").map (fun r => r.payload_json)
        ≠ some (some "1"))
    ∧ ((findRow (failProcessStore (completeProcessStore stPending "k1" (.num 1) 1)
          "k1" (.str "late failure") 2) "k1").map (fun r => r.status)
        = some "ERROR") :=
  ⟨rfl, by decide, rfl⟩

/-- C1 (amended): a second Completion Signal for an already-terminal key is
not a no-op. The UPDATE statements of completeProcessStore and
failProcessStore carry no guard on the current status, so the second call
overwrites the terminal status and payload with its own values (last write
wins) — while the signal path still reports success. -/
theorem c1_second_signal_overwrites (st : Store) (k : String) (p1 p2 : Json)
    (e : ErrArg) (n1 n2 : Nat) (h : (findRow st k).isSome = true) :
    ((findRow (completeProcessStore (completeProcessStore st k p1 n1) k p2 n2) k).map
        (fun r => (r.status, r.payload_json))
      = some ("DONE", some (stringifyJson p2)))
    ∧ ((findRow (failProcessStore (completeProcessStore st k p1 n1) k e n2) k).map
        (fun r => (r.status, r.error_json, r.payload_json))
      = some ("ERROR", some (failJson e), none))
    ∧ (completeWait (completeProcessStore st k p1 n1) k p2 true n2).2 = true := by
  obtain ⟨r, hr⟩ := Option.isSome_iff_exists.mp h
  refine ⟨?_, ?_, rfl⟩
  · rw [completeProcessStore, completeProcessStore, findRow_updateRow_self,
      findRow_updateRow_self, hr]
    rfl
  · rw [failProcessStore, completeProcessStore, findRow_updateRow_self,
      findRow_updateRow_self, hr]
    rfl

/-- Witness for c1_second_signal_overwrites at a concrete store. -/
theorem c1_second_signal_overwrites_witness :
    ((findRow (completeProcessStore (completeProcessStore stPending "k1" (.num 1) 1)
          "k1" (.num 2) 2) "k1").map (fun r => (r.status, r.payload_json))
      = some ("DONE", some (stringifyJson (.num 2))))
    ∧ ((findRow (failProcessStore (completeProcessStore stPending "k1" (.num 1) 1)
          "k1" (.str "late failure") 2) "k1").map
          (fun r => (r.status, r.error_json, r.payload_json))
      = some ("ERROR", some (failJson (.str "late failure")), none))
    ∧ (completeWait (completeProcessStore stPending "k1" (.num 1) 1)
          "k1" (.num 2) true 2).2 = true :=
  c1_second_signal_overwrites stPending "k1" (.num 1) (.num 2) (.str "late failure")
    1 2 rfl

/-- C2, counterexample: a save with status "pending" on the terminal (DONE)
k1 record reverts its status to 'PENDING' — which is neither 'DONE' nor
'ERROR' — so terminal state is not sticky. -/
theorem c2_counterexample :
    ((processStoreSave (completeProcessStore stPending "k1" (.num 1) 1) "k1"
        { status := some "pending" } 3).map
      (fun s => (findRow s "k1").map (fun r => r.status))
      = .ok (some "PENDING"))
    ∧ ("PENDING" : String) ≠ "DONE" ∧ ("PENDING" : String) ≠ "ERROR" :=
  ⟨rfl, by decide, by decide⟩

/-- C2 (amended): upsert_pending (processStore.save with status "pending") on
a terminal record does not leave it terminal: the UPDATE branch of
upsertProcessStore has no status guard, so the row goes back to 'PENDING'
with a refreshed updated_at, while fields the patch does not supply are
merged over from the existing row — a truthy DONE payload is re-serialized
unchanged (round-trip), and started_at is untouched. -/
theorem c2_save_pending_reverts_terminal (st : Store) (k : String) (P : Json)
    (r : Row) (n : Nat) (hr : findRow st k = some r) (hs : r.status = "DONE")
    (hp : r.payload_json = some (stringifyJson P)) (ht : P.truthy = true)
    (he : r.error_json = none) :
    processStoreSave st k { status := some "pending" } n
      = .ok (updateRow st k (fun r0 =>
          { r0 with
            status := "PENDING"
            payload_json := some (stringifyJson P)
            error_json := none
            updated_at := n }))
    ∧ findRow (updateRow st k (fun r0 =>
          { r0 with
            status := "PENDING"
            payload_json := some (stringifyJson P)
            error_json := none
            updated_at := n })) k
      = some { r with status := "PENDING", updated_at := n } := by
  have hrow : rowToProcessData r
      = .ok { status := "done", data := some P, error := none,
              startedAt := r.started_at, updatedAt := r.updated_at } := by
    rw [rowToProcessData, hp, he, hs]
    simp [stringifyJson_beq_empty, parseJson_stringify]
    rfl
  have hfind : findProcessStore st k
      = .ok (some { status := "done", data := some P, error := none,
                    startedAt := r.started_at, updatedAt := r.updated_at }) := by
    simp only [findProcessStore, hr]
    rw [hrow]
    rfl
  have hcol : jsonColumn (some P) = some (stringifyJson P) := by
    simp [jsonColumn, ht]
  have hup : jsToUpper "pending" = "PENDING" := rfl
  constructor
  · simp [processStoreSave, hfind, upsertProcessStore, hr, hcol, hup]
  · rw [findRow_updateRow_self, hr, hp, he]
    rfl

/-- Witness for c2_save_pending_reverts_terminal at a concrete store. -/
theorem c2_save_pending_reverts_terminal_witness :
    processStoreSave [("k1", rowDone1)] "k1" { status := some "pending" } 3
      = .ok (updateRow [("k1", rowDone1)] "k1" (fun r0 =>
          { r0 with
            status := "PENDING"
            payload_json := some (stringifyJson (.num 1))
            error_json := none
            updated_at := 3 }))
    ∧ findRow (updateRow [("k1", rowDone1)] "k1" (fun r0 =>
          { r0 with
            status := "PENDING"
            payload_json := some (stringifyJson (.num 1))
            error_json := none
            updated_at := 3 })) "k1"
      = some { rowDone1 with status := "PENDING", updated_at := 3 } :=
  c2_save_pending_reverts_terminal [("k1", rowDone1)] "k1" (.num 1) rowDone1 3
    rfl rfl rfl rfl rfl

/-- C3 (code bug): at a store whose k1 record is terminal ERROR from the very
first poll, the poll itself reports the error status and message — yet
createWait returns the TIMEOUT outcome after burning the whole 200ms
deadline (sleeps 50, 100, 200), because the `throw err` for the ERROR case
sits inside the try block whose catch swallows every exception. The
repository's own test ("rejects when status becomes ERROR") expects the
carried message to surface instead. -/
theorem c3_error_record_times_out :
    ((pollProcessStore [("k1",
        { status := "ERROR", payload_json := none,
          error_json := some (failJson (.error "boom")),
          started_at := 0, updated_at := 5 })] "k1").map
        (fun found => found.map (fun pd => (pd.status, pd.error)))
      = .ok (some ("error", some "boom")))
    ∧ createWait (staticPolls [("k1",
        { status := "ERROR", payload_json := none,
          error_json := some (failJson (.error "boom")),
          started_at := 0, updated_at := 5 })] "k1") 200 10
      = some (.timeout, [50, 100, 200]) :=
  ⟨rfl, rfl⟩

/-- C4 (code bug): the status route's branches at concrete stores — 404 with
no record, 202 for PENDING, 500 for ERROR — but a record completed by
completeProcessStore (status 'DONE') yields 202 with body status "done",
not the claimed 200: the route compares the lowercased stored status against
"ok", which 'DONE' never equals. -/
theorem c4_done_row_answers_202 :
    ((statusGet ([] : Store) "k1").map (fun p => p.1) = .ok 404)
    ∧ ((statusGet stPending "k1").map (fun p => p.1) = .ok 202)
    ∧ ((statusGet (failProcessStore stPending "k1" (.error "boom") 5) "k1").map
        (fun p => p.1) = .ok 500)
    ∧ ((statusGet (completeProcessStore stPending "k1" (.num 1) 7) "k1").map
        (fun p => (p.1, p.2.getField "status")) = .ok (202, some (.str "done")))
    ∧ (202 : Nat) ≠ 200 :=
  ⟨rfl, rfl, rfl, rfl, by decide⟩

/-- Mutual exclusivity of the payload and error columns on one row. -/
def exclusiveRow (r : Row) : Prop :=
  r.payload_json = none ∨ r.error_json = none

/-- Mutual exclusivity across the whole store. -/
def exclusiveStore (st : Store) : Prop :=
  ∀ e ∈ st, exclusiveRow e.2

/-- C5, counterexample: fail(k1, "boom") then save(k1, status ok, data 7) —
the sequence the complete route runs when an earlier failure is followed by
a success signal — leaves payload_json = '7' AND error_json = 'boom' both
set on the same row: save merges the existing error into the merged record
and upsert writes both columns. -/
theorem c5_counterexample :
    (processStoreSave (failProcessStore stPending "k1" (.str "boom") 1) "k1"
        { status := some "ok", data := some (.num 7) } 2).map
      (fun s => (findRow s "k1").map (fun r => (r.payload_json, r.error_json)))
      = .ok (some (some "7", some "boom")) := rfl

/-- C5 (amended): completeProcessStore and failProcessStore always
re-establish mutual exclusivity on the row they touch (each nulls the other
column) and preserve it on every other row; upsertProcessStore preserves it
provided the record it writes does not carry both a data and an error field
— the guarantee that processStore.save's merge breaks. -/
theorem c5_exclusivity_amended (st : Store) (k : String) (p : Json) (e : ErrArg)
    (d : ProcessData) (n : Nat) (h : exclusiveStore st) :
    exclusiveStore (completeProcessStore st k p n)
    ∧ exclusiveStore (failProcessStore st k e n)
    ∧ (d.data = none ∨ d.error = none →
        exclusiveStore (upsertProcessStore st k d n)) := by
  have hupd : ∀ (f : Row → Row), (∀ r, exclusiveRow (f r)) →
      exclusiveStore (updateRow st k f) := by
    intro f hf e' he'
    rw [updateRow] at he'
    obtain ⟨e0, he0, rfl⟩ := List.mem_map.mp he'
    by_cases hk : e0.1 == k
    · simpa [hk] using hf e0.2
    · simpa [hk] using h e0 he0
  have hnew : ∀ _ : d.data = none ∨ d.error = none,
      exclusiveRow
        { status := jsToUpper d.status
          payload_json := jsonColumn d.data
          error_json := d.error
          started_at := n
          updated_at := n } := by
    intro hde
    cases hde with
    | inl h1 => exact Or.inl (by simp [jsonColumn, h1])
    | inr h2 => exact Or.inr h2
  refine ⟨hupd _ (fun r => Or.inr rfl), hupd _ (fun r => Or.inl rfl), ?_⟩
  intro hde e' he'
  rw [upsertProcessStore] at he'
  by_cases hfound : (findRow st k).isSome = true
  · rw [if_pos hfound] at he'
    revert he'
    refine hupd _ (fun r => ?_) e'
    cases hde with
    | inl h1 => exact Or.inl (by simp [jsonColumn, h1])
    | inr h2 => exact Or.inr h2
  · rw [if_neg hfound] at he'
    rcases List.mem_append.mp he' with hin | hin
    · exact h e' hin
    · have heq : e' = (k,
          { status := jsToUpper d.status
            payload_json := jsonColumn d.data
            error_json := d.error
            started_at := n
            updated_at := n }) := by
        simpa using hin
      rw [heq]
      exact hnew hde

/-- Fixture: a ProcessData carrying an error only, for the C5 witness. -/
def pdErrOnly : ProcessData :=
  { status := "pending"
    data := none
    error := some "x"
    startedAt := 0
    updatedAt := 0 }

/-- Witness for c5_exclusivity_amended at a concrete store and record. -/
theorem c5_exclusivity_amended_witness :
    exclusiveStore (completeProcessStore stPending "k1" (.num 1) 3)
    ∧ exclusiveStore (failProcessStore stPending "k1" (.str "x") 3)
    ∧ (pdErrOnly.data = none ∨ pdErrOnly.error = none →
        exclusiveStore (upsertProcessStore stPending "k1" pdErrOnly 3)) :=
  c5_exclusivity_amended stPending "k1" (.num 1) (.str "x") pdErrOnly 3
    (by intro e he; simp [stPending] at he; rw [he]; exact Or.inl rfl)

/-- C6, counterexample: a request whose body passes schema validation, but
whose initial processStore.save write fails at the database, makes the
handler reject (Fastify then replies with an error, not 200): the save call
is not wrapped in try/catch, so "regardless of whether the underlying store
writes succeeded or failed" does not hold for that first write. -/
theorem c6_counterexample :
    completeRouteHandler stPending
      { correlationId := "k1", status := "ok", data := some (.num 1), error := none }
      false true 9
      = .error "db unavailable" := rfl

/-- C6 (amended): whenever the initial processStore.save succeeds, the
complete endpoint replies 200 with received: true — regardless of the
signalled status (ok or error), of whether any record exists for the
correlation key, and of whether the completeWait/failWait store write
succeeds (their failures are swallowed). Only a failure of that initial
save escapes the handler. -/
theorem c6_answers_200_when_save_succeeds (st : Store) (body : CompleteBody)
    (sigOk : Bool) (now : Nat) (st1 : Store)
    (hsave : processStoreSave st body.correlationId
      { status := some body.status, data := body.data, error := body.error } now
      = .ok st1) :
    ∃ st2, completeRouteHandler st body true sigOk now
      = .ok (st2, 200, .obj (.cons "received" (.bool true) .nil)) := by
  refine ⟨(if body.status == "ok" then
      completeWait st1 body.correlationId (body.data.getD .null) sigOk now
    else
      failWait st1 body.correlationId
        (.error (body.error.getD "Unknown process error")) sigOk now).1, ?_⟩
  simp [completeRouteHandler, hsave]

/-- Witness for c6_answers_200_when_save_succeeds: concrete request whose
waitroom write fails, still answered 200. -/
theorem c6_answers_200_when_save_succeeds_witness :
    ∃ st2, completeRouteHandler stPending
      { correlationId := "k1", status := "ok", data := some (.num 1), error := none }
      true false 9
      = .ok (st2, 200, .obj (.cons "received" (.bool true) .nil)) :=
  c6_answers_200_when_save_succeeds stPending
    { correlationId := "k1", status := "ok", data := some (.num 1), error := none }
    false 9
    [("k1", { status := "OK", payload_json := some "1", error_json := none,
              started_at := 0, updated_at := 9 })]
    rfl

theorem waitLoop_congr (p1 p2 : Nat → PollResult) (t : Nat) :
    ∀ (fuel n e d : Nat), (∀ m, n ≤ m → p1 m = p2 m) →
    waitLoop p1 t n e d fuel = waitLoop p2 t n e d fuel := by
  intro fuel
  induction fuel with
  | zero => intro n e d hp; rfl
  | succ f ih =>
    intro n e d hp
    simp only [waitLoop]
    rw [hp n (Nat.le_refl n),
      ih (n + 1) (e + d) (Nat.min (d * 2) 1000) (fun m hm => hp m (by omega))]

/-- C7: inside createWait, a poll that finds no row is handled exactly like
one that finds a PENDING record: the whole wait computes the same result
under either oracle, and the iteration continues to the next poll — still
respecting the deadline — rather than returning or raising. -/
theorem c7_missing_row_like_pending (polls : Nat → PollResult)
    (pd : ProcessData) (t n e d fuel : Nat)
    (hnone : polls n = .ok none) (hpend : pd.status = "pending") :
    (waitLoop polls t n e d fuel
      = waitLoop (fun m => if m = n then .ok (some pd) else polls m) t n e d fuel)
    ∧ (waitLoop polls t n e d (fuel + 1)
      = if e < t then
          (waitLoop polls t (n + 1) (e + d) (Nat.min (d * 2) 1000) fuel).map
            (fun p => (p.1, d :: p.2))
        else some (.timeout, [])) := by
  have h1 : ∀ g : Nat, waitLoop polls t n e d (g + 1)
      = if e < t then
          (waitLoop polls t (n + 1) (e + d) (Nat.min (d * 2) 1000) g).map
            (fun p => (p.1, d :: p.2))
        else some (.timeout, []) := by
    intro g
    simp only [waitLoop, hnone]
  refine ⟨?_, h1 fuel⟩
  cases fuel with
  | zero => rfl
  | succ f =>
    have h2 : waitLoop (fun m => if m = n then .ok (some pd) else polls m)
        t n e d (f + 1)
        = if e < t then
            (waitLoop (fun m => if m = n then .ok (some pd) else polls m)
                t (n + 1) (e + d) (Nat.min (d * 2) 1000) f).map
              (fun p => (p.1, d :: p.2))
          else some (.timeout, []) := by
      simp [waitLoop, hpend]
    have h3 : waitLoop polls t (n + 1) (e + d) (Nat.min (d * 2) 1000) f
        = waitLoop (fun m => if m = n then .ok (some pd) else polls m)
            t (n + 1) (e + d) (Nat.min (d * 2) 1000) f :=
      waitLoop_congr polls _ t f (n + 1) (e + d) (Nat.min (d * 2) 1000)
        (fun m hm => by
          have hmn : ¬m = n := by omega
          simp [hmn])
    rw [h1 f, h2, h3]

/-- Fixture: a PENDING ProcessData as pollProcessStore reads it back. -/
def pdPendingFix : ProcessData :=
  { status := "pending"
    data := none
    error := none
    startedAt := 0
    updatedAt := 0 }

/-- Witness for c7_missing_row_like_pending at a concrete oracle. -/
theorem c7_missing_row_like_pending_witness :
    (waitLoop (fun _ => Except.ok none) 100 0 0 50 5
      = waitLoop (fun m => if m = 0 then Except.ok (some pdPendingFix)
          else Except.ok none) 100 0 0 50 5)
    ∧ (waitLoop (fun _ => Except.ok none) 100 0 0 50 (5 + 1)
      = if 0 < 100 then
          (waitLoop (fun _ => Except.ok none) 100 (0 + 1) (0 + 50)
              (Nat.min (50 * 2) 1000) 5).map (fun p => (p.1, 50 :: p.2))
        else some (.timeout, [])) :=
  c7_missing_row_like_pending (fun _ => Except.ok none) pdPendingFix
    100 0 0 50 5 rfl rfl

/-- The delay value reached after i backoff updates from d. -/
def delayFrom (d : Nat) : Nat → Nat
  | 0 => d
  | i + 1 => delayFrom (Nat.min (d * 2) 1000) i

theorem waitLoop_sleeps (polls : Nat → PollResult) (t : Nat) :
    ∀ (fuel n e d : Nat) (o : WaitOutcome) (sleeps : List Nat),
    waitLoop polls t n e d fuel = some (o, sleeps) →
    ∀ i (hi : i < sleeps.length), sleeps.get ⟨i, hi⟩ = delayFrom d i := by
  intro fuel
  induction fuel with
  | zero =>
    intro n e d o sleeps hrun
    have h0 : (none : Option (WaitOutcome × List Nat)) = some (o, sleeps) := hrun
    exact Option.noConfusion h0
  | succ f ih =>
    intro n e d o sleeps hrun i hi
    simp only [waitLoop] at hrun
    by_cases het : e < t
    · rw [if_pos het] at hrun
      split at hrun
      · have h6 : ([] : List Nat) = sleeps := by
          have h5 := hrun
          simp only [Option.some.injEq, Prod.mk.injEq] at h5
          exact h5.2
        rw [← h6] at hi
        exact absurd hi (by simp)
      · rcases hmap : waitLoop polls t (n + 1) (e + d) (Nat.min (d * 2) 1000) f with
          _ | p
        · rw [hmap] at hrun
          exact Option.noConfusion
            (show (none : Option (WaitOutcome × List Nat)) = some (o, sleeps) from hrun)
        · rw [hmap] at hrun
          have hrun2 : some ((p.1, d :: p.2)) = some (o, sleeps) := hrun
          injection hrun2 with h9
          have h6 : d :: p.2 = sleeps := congrArg Prod.snd h9
          subst h6
          cases i with
          | zero => rfl
          | succ j =>
            have hj : j < p.2.length := by simpa using hi
            have h7 := ih (n + 1) (e + d) (Nat.min (d * 2) 1000) p.1 p.2
              (by rw [hmap]) j hj
            simpa [delayFrom] using h7
    · rw [if_neg het] at hrun
      have h5 := hrun
      simp only [Option.some.injEq, Prod.mk.injEq] at h5
      rw [← h5.2] at hi
      exact absurd hi (by simp)

theorem delayFrom_formula : ∀ (i a : Nat),
    delayFrom (Nat.min (50 * 2 ^ a) 1000) i = Nat.min (50 * 2 ^ (a + i)) 1000 := by
  intro i
  induction i with
  | zero => intro a; simp [delayFrom]
  | succ j ih =>
    intro a
    rw [delayFrom]
    have hmin : ∀ x : Nat, Nat.min (Nat.min x 1000 * 2) 1000 = Nat.min (x * 2) 1000 := by
      intro x
      by_cases hx : x ≤ 1000
      · rw [show Nat.min x 1000 = x from by
          show min x 1000 = x
          rw [Nat.min_def, if_pos hx]]
      · rw [show Nat.min x 1000 = 1000 from by
            show min x 1000 = 1000
            rw [Nat.min_def, if_neg hx],
          show Nat.min (1000 * 2) 1000 = 1000 from by
            show min (1000 * 2) 1000 = 1000
            rw [Nat.min_def, if_neg (by omega)],
          show Nat.min (x * 2) 1000 = 1000 from by
            show min (x * 2) 1000 = 1000
            rw [Nat.min_def, if_neg (by omega)]]
    rw [hmin (50 * 2 ^ a)]
    have h2 : 50 * 2 ^ a * 2 = 50 * 2 ^ (a + 1) := by ring
    rw [h2, ih (a + 1)]
    have h3 : a + 1 + j = a + (j + 1) := by omega
    rw [h3]

/-- C8: every sleep createWait performs follows the doubling-with-cap
schedule: for every run of createWait (which starts at delay 50 and updates
delay to min(delay*2, 1000) after each poll), the sleep before the (n+1)-st
poll lasts min(50·2^n, 1000) milliseconds. -/
theorem c8_backoff_schedule (polls : Nat → PollResult) (t fuel : Nat)
    (o : WaitOutcome) (sleeps : List Nat)
    (hrun : createWait polls t fuel = some (o, sleeps)) :
    ∀ i (hi : i < sleeps.length), sleeps.get ⟨i, hi⟩ = Nat.min (50 * 2 ^ i) 1000 := by
  intro i hi
  have h1 := waitLoop_sleeps polls t fuel 0 0 50 o sleeps hrun i hi
  have h3 := delayFrom_formula i 0
  have h4 : Nat.min (50 * 2 ^ 0) 1000 = 50 := by decide
  rw [h4] at h3
  rw [h1, h3]
  have h5 : 0 + i = i := by omega
  rw [h5]

/-- Witness for c8_backoff_schedule on a concrete run: a never-answering
oracle with a 120ms deadline sleeps 50 then 100, and min(50·2^1, 1000)
is indeed the second sleep. -/
theorem c8_backoff_schedule_witness :
    ([50, 100] : List Nat).get ⟨1, by decide⟩ = Nat.min (50 * 2 ^ 1) 1000 :=
  c8_backoff_schedule (fun _ => Except.ok none) 120 10 .timeout [50, 100] rfl 1
    (by decide)

/-- C9: when complete(key, P) is the last write for an existing record, a
subsequent Status read carries a data value structurally equal to P — the
stringify-on-write / parse-on-read round-trip is the identity on the
modelled JSON payloads. -/
theorem c9_roundtrip_status (st : Store) (k : String) (P : Json) (now : Nat)
    (h : (findRow st k).isSome = true) :
    parseJson (stringifyJson P) = some P
    ∧ ∃ code body, statusGet (completeProcessStore st k P now) k = .ok (code, body)
        ∧ body.getField "data" = some P := by
  obtain ⟨r, hr⟩ := Option.isSome_iff_exists.mp h
  refine ⟨parseJson_stringify P, ?_⟩
  have hrow : findRow (completeProcessStore st k P now) k
      = some { r with
          status := "DONE"
          payload_json := some (stringifyJson P)
          error_json := none
          updated_at := now } := by
    rw [completeProcessStore, findRow_updateRow_self, hr]
    rfl
  have hpd : rowToProcessData { r with
          status := "DONE"
          payload_json := some (stringifyJson P)
          error_json := none
          updated_at := now }
      = .ok { status := "done", data := some P, error := none,
              startedAt := r.started_at, updatedAt := now } := by
    rw [rowToProcessData]
    simp [stringifyJson_beq_empty, parseJson_stringify]
    rfl
  have hfind : findProcessStore (completeProcessStore st k P now) k
      = .ok (some { status := "done", data := some P, error := none,
                    startedAt := r.started_at, updatedAt := now }) := by
    simp only [findProcessStore, hrow]
    rw [hpd]
    rfl
  refine ⟨202, Json.obj (.cons "status" (.str "done")
      (.cons "correlationId" (.str k)
      (.cons "data" P
      (.cons "startedAt" (.num r.started_at)
      (.cons "updatedAt" (.num now) .nil))))), ?_, ?_⟩
  · simp only [statusGet, hfind]
    rfl
  · rfl

/-- Witness for c9_roundtrip_status at a concrete store and payload. -/
theorem c9_roundtrip_status_witness :
    parseJson (stringifyJson (.obj (.cons "x" (.num 1) .nil)))
      = some (.obj (.cons "x" (.num 1) .nil))
    ∧ ∃ code body, statusGet (completeProcessStore stPending "k1"
          (.obj (.cons "x" (.num 1) .nil)) 7) "k1" = .ok (code, body)
        ∧ body.getField "data" = some (.obj (.cons "x" (.num 1) .nil)) :=
  c9_roundtrip_status stPending "k1" (.obj (.cons "x" (.num 1) .nil)) 7 rfl

/-- C10: clearAll with a reachable database rewrites exactly the PENDING
rows to ERROR carrying the message "Aborted: reason" (refreshing only
updated_at), leaves every DONE or ERROR row byte-for-byte unchanged, and a
database failure is swallowed: the call still returns normally with the
store untouched. -/
theorem c10_clearAll_aborts_only_pending (st : Store) (reason : String)
    (now : Nat) (k : String) (r : Row) :
    (findRow st k = some r → r.status = "PENDING" →
      findRow (clearAll st reason true now) k
        = some { r with
            status := "ERROR"
            error_json := some (stringifyJson
              (.obj (.cons "message" (.str ("Aborted: " ++ reason)) .nil)))
            updated_at := now })
    ∧ (findRow st k = some r → r.status = "DONE" ∨ r.status = "ERROR" →
      findRow (clearAll st reason true now) k = some r)
    ∧ clearAll st reason false now = st := by
  refine ⟨?_, ?_, rfl⟩
  · intro hr hp
    rw [findRow_clearAll, hr]
    simp [hp]
  · intro hr hterm
    rw [findRow_clearAll, hr]
    have hne : (r.status == "PENDING") = false := by
      rcases hterm with h1 | h1 <;> simp [h1]
    simp [hne]
    intro h1
    rw [h1] at hne
    simp at hne

/-- Fixture: a completed row for the C10 witness. -/
def rowDoneB : Row :=
  { status := "DONE", payload_json := some "5", error_json := none,
    started_at := 0, updated_at := 0 }

/-- Fixture: a store mixing one PENDING and one DONE record. -/
def stMixC : Store := [("a", rowPending), ("b", rowDoneB)]

/-- Witness for c10_clearAll_aborts_only_pending at a concrete store. -/
theorem c10_clearAll_aborts_only_pending_witness :
    (findRow (clearAll stMixC "server shutdown" true 4) "a"
      = some { rowPending with
          status := "ERROR"
          error_json := some (stringifyJson
            (.obj (.cons "message" (.str ("Aborted: " ++ "server shutdown")) .nil)))
          updated_at := 4 })
    ∧ (findRow (clearAll stMixC "server shutdown" true 4) "b" = some rowDoneB)
    ∧ clearAll stMixC "x" false 4 = stMixC :=
  ⟨(c10_clearAll_aborts_only_pending stMixC "server shutdown" 4 "a" rowPending).1
      rfl rfl,
   (c10_clearAll_aborts_only_pending stMixC "server shutdown" 4 "b" rowDoneB).2.1
      rfl (Or.inl rfl),
   (c10_clearAll_aborts_only_pending stMixC "x" 4 "a" rowPending).2.2⟩

end FCam
